import Mathlib

/-!
# Verification of the salon bookkeeping core (`src/app.py`)

Shallow embedding of the expense/sales parsing and P&L statement pipeline
of `app.py` (functions `_parse_sales_summary`, `_parse_expenses`,
`_build_report_and_tables`, `_calc_hanover_tax_text`, `_format_line`).

Modelling conventions:
* Spreadsheet cells are modelled after Python's `str(cell)` view: a cell is a
  `String`, with a missing/NaN cell appearing as the string `"nan"` (which is
  exactly what `str(float("nan"))` yields and what the code tests against).
* The result of the lenient date parse `pd.to_datetime(cell, errors="coerce")`
  on column 2 is modelled abstractly as an `Option Int` input field
  (`none` = `NaT`), since `to_datetime` is an external library call that never
  raises under `errors="coerce"`.
* Python `float(...)` applied to a string is modelled by `parsePyFloat`:
  optional sign, decimal digits with optional fractional part and exponent,
  and the case-insensitive words `nan` / `inf` / `infinity` (all of which
  Python's `float` accepts).  Numeric values are represented exactly as `ℚ`;
  the non-finite results keep their own constructors.
* Monetary amounts inside the statement builder are exact rationals; the
  claims about the builder are structural (ordering, guards, formulas), not
  about binary64 rounding.
-/

/-- Result of Python's `float(...)` on a string: a finite value, `nan`, or a
signed infinity. -/
inductive PyFloat where
  | num (q : ℚ)
  | nan
  | inf
  | ninf
  deriving DecidableEq, Repr

/-- Negation of a Python float (used for a leading `-` sign; note
`float("-nan")` is still `nan`). -/
def PyFloat.neg : PyFloat → PyFloat
  | .num q => .num (-q)
  | .nan => .nan
  | .inf => .ninf
  | .ninf => .inf

/-- Python `str.strip()`: drop leading and trailing whitespace. -/
def pyStrip (s : String) : String :=
  ⟨((s.data.dropWhile Char.isWhitespace).reverse.dropWhile Char.isWhitespace).reverse⟩

/-- Python substring test `pat in s`. -/
def hasSubstr (s pat : String) : Bool :=
  decide (pat.data <:+: s.data)

/-- Python `"…".replace(",", "").replace("$", "")`: remove every comma and dollar
sign. -/
def stripCD (s : String) : String :=
  ⟨s.data.filter (fun c => ¬(c = ',' ∨ c = '$'))⟩

/-- Value of a list of decimal digit characters. -/
def digitsToNat (cs : List Char) : ℕ :=
  cs.foldl (fun a c => a * 10 + (c.toNat - 48)) 0

/-- Parse an unsigned decimal float literal (already lower-cased, sign
removed): `digits [. digits] [e [sign] digits]`, needing at least one
mantissa digit, exactly as Python's `float` grammar (digit-group
underscores are not modelled). -/
def parseDecimal (cs : List Char) : Option ℚ :=
  let ip := cs.takeWhile Char.isDigit
  let rest := cs.dropWhile Char.isDigit
  let fp :=
    match rest with
    | '.' :: r => r.takeWhile Char.isDigit
    | _ => []
  let rest2 :=
    match rest with
    | '.' :: r => r.dropWhile Char.isDigit
    | _ => rest
  if ip.isEmpty ∧ fp.isEmpty then none
  else
    let mant : ℚ := (digitsToNat (ip ++ fp) : ℚ)
    let fl : ℕ := fp.length
    match rest2 with
    | [] => some (mant / 10 ^ fl)
    | e :: r =>
      if e = 'e' then
        let sgn : ℤ := match r with | '-' :: _ => -1 | _ => 1
        let r2 := match r with | '+' :: t => t | '-' :: t => t | t => t
        if r2.isEmpty ∨ ¬r2.all Char.isDigit then none
        else
          let sc : ℤ := sgn * (digitsToNat r2 : ℤ) - (fl : ℤ)
          some (if 0 ≤ sc then mant * 10 ^ sc.toNat else mant / 10 ^ (-sc).toNat)
      else none

/-- Python `float(s)` on a string: strip whitespace, optional sign, then a
decimal literal or one of the words `nan` / `inf` / `infinity`
(case-insensitive).  `none` models `float` raising `ValueError`. -/
def parsePyFloat (s : String) : Option PyFloat :=
  let cs := (pyStrip s).data.map Char.toLower
  let neg : Bool := match cs with | '-' :: _ => true | _ => false
  let cs2 := match cs with | '+' :: t => t | '-' :: t => t | t => t
  let base : Option PyFloat :=
    if cs2 = ['n', 'a', 'n'] then some .nan
    else if cs2 = ['i', 'n', 'f'] ∨ cs2 = ['i', 'n', 'f', 'i', 'n', 'i', 't', 'y'] then
      some .inf
    else (parseDecimal cs2).map .num
  base.map (fun v => if neg then v.neg else v)

/-- One raw row of the expense table, as `_parse_expenses` sees it:
`c0` is `str(row.iloc[0])` (vendor name or category header or marker),
`date` is the result of `pd.to_datetime(row.iloc[2], errors="coerce")`
(`none` = `NaT`), `amt` is `str(row.iloc[3])`. -/
structure ERow where
  c0 : String
  date : Option Int
  amt : String
  deriving DecidableEq, Repr

/-- One emitted expense record (`expenses_list` entry in `_parse_expenses`):
category, raw vendor cell, parsed date, parsed amount. -/
structure PRecord where
  category : String
  vendor : String
  date : Int
  amount : PyFloat
  deriving DecidableEq, Repr

/-- What `_parse_expenses` does with a single row. -/
inductive RAction where
  | skip
  | setCat (c : String)
  | dropRow
  | emit (er : PRecord)
  deriving DecidableEq, Repr

/-- Lookahead test `str(exp_df.iloc[i + 1, 0]) == "Vendor"` (note: the next
row's cell is *not* stripped in the source). -/
def nextVendor (next : Option ERow) : Bool :=
  match next with
  | some n => n.c0 == "Vendor"
  | none => false

/-- The per-row branch structure of `_parse_expenses`, with the carried
`curr_cat` state and the lookahead row made explicit.  The amount parse
(`float(str(row.iloc[3]).replace(",", "").replace("$", ""))`) failing models
the `except` branch; a `NaT` date fails the `if not pd.isna(date_val)`
guard; both drop the row. -/
def rowAction (cat : Option String) (r : ERow) (next : Option ERow) : RAction :=
  if pyStrip r.c0 = "Total" ∨ hasSubstr (pyStrip r.c0) "Total Expenses" then .skip
  else if pyStrip r.c0 ≠ "" ∧ pyStrip r.c0 ≠ "nan" ∧ pyStrip r.c0 ≠ "Vendor" ∧
      ¬hasSubstr (pyStrip r.c0) "Report" then
    if nextVendor next then .setCat (pyStrip r.c0)
    else
      match cat with
      | some c =>
        match parsePyFloat (stripCD r.amt) with
        | none => .dropRow
        | some a =>
          match r.date with
          | none => .dropRow
          | some d => .emit ⟨c, r.c0, d, a⟩
      | none => .skip
  else .skip

/-- The row loop of `_parse_expenses`, threading `curr_cat`. -/
def parseExpensesGo (cat : Option String) : List ERow → List PRecord
  | [] => []
  | r :: rest =>
    match rowAction cat r rest.head? with
    | .setCat c => parseExpensesGo (some c) rest
    | .emit er => er :: parseExpensesGo cat rest
    | _ => parseExpensesGo cat rest

/-- The function `_parse_expenses`: scan the rows in order with `curr_cat` initially
unset. -/
def parse_expenses (rows : List ERow) : List PRecord :=
  parseExpensesGo none rows

/-! ## Sales summary parser (`_parse_sales_summary`)

A sales row is `(label cell as str, value cell)`.  The value cell is
modelled as the outcome of the two skip tests on it: `some v` when
`pd.isna(v)` is false and `float(v)` succeeds with value `v`, `none` when the
cell is NA or the conversion raises (both paths skip the row). -/

/-- Python-dict assignment `out[k] = v`: overwrite the value at an existing
key in place, else append a new binding. -/
def upsert (m : List (String × ℚ)) (k : String) (v : ℚ) : List (String × ℚ) :=
  if (m.lookup k).isSome then
    m.map (fun p => if p.1 = k then (k, v) else p)
  else m ++ [(k, v)]

/-- One iteration of the `_parse_sales_summary` loop. -/
def salesStep (out : List (String × ℚ)) (row : String × Option ℚ) :
    List (String × ℚ) :=
  let k := pyStrip row.1
  match row.2 with
  | some v => if k ≠ "" ∧ k ≠ "nan" then upsert out k v else out
  | none => out

/-- The function `_parse_sales_summary`: fold the rows into a label → value mapping. -/
def parse_sales_summary (rows : List (String × Option ℚ)) : List (String × ℚ) :=
  rows.foldl salesStep []

/-! ## Statement builder (`_build_report_and_tables`)

The builder consumes the parsed sales mapping and the expense ledger.  Ledger
records here carry exact rational amounts (the ledger type of the data
model); the builder only reads the `Category` and `Amount` columns. -/

/-- A ledger record as consumed by the builder. -/
structure BRec where
  category : String
  amount : ℚ
  deriving DecidableEq, Repr

/-- Lookup `sales_summary.get(key, 0.0)`. -/
def getSales (sales : List (String × ℚ)) (k : String) : ℚ :=
  match sales.lookup k with
  | some v => v
  | none => 0

/-- A cell of a `last_pnl_data` row: the Python rows mix floats and the empty
string, and the renderer branches on Python truthiness of the cell. -/
inductive Val where
  | str (s : String)
  | num (q : ℚ)
  deriving DecidableEq, Repr

/-- Python truthiness of a row cell (`""` and `0.0` are falsy). -/
def Val.truthy : Val → Bool
  | .str s => s ≠ ""
  | .num q => q ≠ 0

/-- One row of `last_pnl_data`: `[label, amount, fraction]`. -/
structure PRow where
  label : String
  amount : Val
  frac : Val
  deriving DecidableEq, Repr

/-- Guarded fraction `(x / total_rev) if total_rev else 0`. -/
def fracOf (tr x : ℚ) : ℚ :=
  if tr = 0 then 0 else x / tr

/-- A data row `[label, amt, amt / total_rev or 0]`. -/
def dataRow (lbl : String) (amt tr : ℚ) : PRow :=
  ⟨lbl, .num amt, .num (fracOf tr amt)⟩

/-- A section-header row `[label, "", ""]`. -/
def hdrRow (lbl : String) : PRow := ⟨lbl, .str "", .str ""⟩

/-- The spacer row `["", "", ""]`. -/
def spacerRow : PRow := ⟨"", .str "", .str ""⟩

/-- The hard-coded COGS category whitelist. -/
def cogs_cats : List String := ["Back Bar", "Inventory"]

/-- Filter `expenses_df[expenses_df["Category"].isin(cogs_cats)]`. -/
def cogs_df (ledger : List BRec) : List BRec :=
  ledger.filter (fun r => r.category ∈ cogs_cats)

/-- Filter `expenses_df[~expenses_df["Category"].isin(cogs_cats)]`. -/
def opex_df (ledger : List BRec) : List BRec :=
  ledger.filter (fun r => r.category ∉ cogs_cats)

/-- Sum `df["Amount"].sum()` (0 on an empty frame). -/
def amtSum (l : List BRec) : ℚ :=
  (l.map BRec.amount).sum

/-- Revenue `total_rev = net_sales + tax_collected + prepayments (+ gratuity)`. -/
def total_rev (sales : List (String × ℚ)) (include_tips : Bool) : ℚ :=
  getSales sales "Net Sales" + getSales sales "Tax" +
    getSales sales "Prepayments For Future Sales" +
    (if include_tips then getSales sales "Gratuity" else 0)

/-- Cost of goods `total_cogs = cogs_df["Amount"].sum()`. -/
def total_cogs (ledger : List BRec) : ℚ :=
  amtSum (cogs_df ledger)

/-- Margin `gross_margin = total_rev - total_cogs`. -/
def gross_margin (sales : List (String × ℚ)) (ledger : List BRec)
    (include_tips : Bool) : ℚ :=
  total_rev sales include_tips - total_cogs ledger

/-- Fees `processing_fees = abs(sales_summary.get("Payment Processing Fees Paid By
Business", 0.0))`. -/
def processing_fees (sales : List (String × ℚ)) : ℚ :=
  |getSales sales "Payment Processing Fees Paid By Business"|

/-- Expenses `total_opex = opex_df["Amount"].sum() + processing_fees +
sales_tax_expense` (where `sales_tax_expense = tax_collected`). -/
def total_opex (sales : List (String × ℚ)) (ledger : List BRec) : ℚ :=
  amtSum (opex_df ledger) + processing_fees sales + getSales sales "Tax"

/-- Profit `net_profit = gross_margin - total_opex`. -/
def net_profit (sales : List (String × ℚ)) (ledger : List BRec)
    (include_tips : Bool) : ℚ :=
  gross_margin sales ledger include_tips - total_opex sales ledger

/-- The COGS block: one line per whitelisted category whose summed amount is
strictly positive (`if amt > 0`). -/
def cogsLines (ledger : List BRec) (tr : ℚ) : List PRow :=
  cogs_cats.filterMap (fun cat =>
    let amt := amtSum ((cogs_df ledger).filter (fun r => r.category = cat))
    if 0 < amt then some (dataRow ("  " ++ cat) amt tr) else none)

/-- Lexicographic (code-point) `≤` on char lists: Python's string order. -/
def clLe : List Char → List Char → Bool
  | [], _ => true
  | _ :: _, [] => false
  | a :: as, b :: bs => if a < b then true else if b < a then false else clLe as bs

/-- Lexicographic (code-point) `<` on char lists. -/
def clLt : List Char → List Char → Bool
  | [], [] => false
  | [], _ :: _ => true
  | _ :: _, [] => false
  | a :: as, b :: bs => if a < b then true else if b < a then false else clLt as bs

/-- Python `s1 <= s2` on strings (the order pandas sorts group keys by). -/
def strLe (a b : String) : Bool := clLe a.data b.data

/-- Python `s1 < s2` on strings. -/
def strLt (a b : String) : Bool := clLt a.data b.data

/-- Grouping `opex_df.groupby("Category")["Amount"].sum()`: pandas `groupby` with the
default `sort=True` lists the distinct categories in ascending name order,
each with its summed amount. -/
def opexCatTotals (ledger : List BRec) : List (String × ℚ) :=
  (((opex_df ledger).map BRec.category).dedup.insertionSort
      (fun a b => strLe a b = true)).map
    (fun c => (c, amtSum ((opex_df ledger).filter (fun r => r.category = c))))

/-- Sorting `.sort_values(ascending=False)` on the grouped sums, modelled as a stable
sort by amount descending. -/
def opexSorted (ledger : List BRec) : List (String × ℚ) :=
  (opexCatTotals ledger).insertionSort (fun a b => b.2 ≤ a.2)

/-- Modelled from the spec's words for comparison (claim C2): the non-COGS
category totals listed in *first-encountered* order and then stably sorted
by summed amount descending, which is the ordering the spec asserts. -/
def opexSortedByFirstSeen (ledger : List BRec) : List (String × ℚ) :=
  ((((opex_df ledger).map BRec.category).eraseDups).map
    (fun c => (c, amtSum ((opex_df ledger).filter (fun r => r.category = c))))).insertionSort
    (fun a b => b.2 ≤ a.2)

/-- Rendered operating-expense order actually guaranteed by the code:
strictly larger sum first, and for equal sums the lexicographically smaller
category name first. -/
def descThenName (a b : String × ℚ) : Prop :=
  b.2 < a.2 ∨ (a.2 = b.2 ∧ strLt a.1 b.1 = true)

/-- Row list `last_pnl_data` exactly as `_build_report_and_tables` assembles it. -/
def last_pnl_data (sales : List (String × ℚ)) (ledger : List BRec)
    (include_tips : Bool) : List PRow :=
  let tr := total_rev sales include_tips
  [hdrRow "REVENUE",
   dataRow "  Net Sales" (getSales sales "Net Sales") tr,
   dataRow "  Tax Collected" (getSales sales "Tax") tr,
   dataRow "  Prepayments" (getSales sales "Prepayments For Future Sales") tr]
  ++ (if include_tips then [dataRow "  Tips/Gratuity" (getSales sales "Gratuity") tr] else [])
  ++ [⟨"TOTAL REVENUE", .num tr, .num 1⟩, spacerRow, hdrRow "COGS"]
  ++ cogsLines ledger tr
  ++ [dataRow "TOTAL COGS" (total_cogs ledger) tr,
      dataRow "GROSS MARGIN" (gross_margin sales ledger include_tips) tr,
      spacerRow, hdrRow "OPERATING EXPENSES",
      dataRow "  Sales Tax Paid Out" (getSales sales "Tax") tr,
      dataRow "  Processing Fees" (processing_fees sales) tr]
  ++ (opexSorted ledger).map (fun p => dataRow ("  " ++ p.1) p.2 tr)
  ++ [dataRow "TOTAL OPEX" (total_opex sales ledger) tr,
      dataRow "NET PROFIT" (net_profit sales ledger include_tips) tr]

/-! ## Tax estimator (`_calc_hanover_tax_text`, numeric part)

The decimal literals (`0.9235`, `0.153`, `0.0307`, `52.0`) are represented
exactly as rationals. -/

/-- The six computed figures of the Hanover tax estimate. -/
structure TaxParts where
  se_tax : ℚ
  fed_inc : ℚ
  pa_state : ℚ
  pa_local : ℚ
  lst : ℚ
  total_tax : ℚ
  deriving DecidableEq, Repr

/-- The computation in `_calc_hanover_tax_text`. -/
def calc_hanover_tax (net fed_income_rate local_eit_rate : ℚ) : TaxParts :=
  let se_tax := (net * 0.9235) * 0.153
  let fed_inc := max 0 (net - se_tax * 0.5) * (fed_income_rate / 100)
  let pa_state := net * 0.0307
  let pa_local := net * (local_eit_rate / 100)
  let lst : ℚ := if net > 12000 then 52.0 else 0
  ⟨se_tax, fed_inc, pa_state, pa_local, lst,
    se_tax + fed_inc + pa_state + pa_local + lst⟩

/-! ## Report text rendering

`_format_line` and the row loop at the end of `_build_report_and_tables`.
Number formatting follows Python's `format`: `:,.2f` is
round-half-even to two decimals with thousands separators, `:.1f` is
round-half-even to one decimal without separators. -/

/-- Round a rational to the nearest integer, ties to even (what Python's
string formatting of a decimal value does). -/
def rndHalfEven (x : ℚ) : ℤ :=
  let f := ⌊x⌋
  let r := x - f
  if r < 1 / 2 then f
  else if 1 / 2 < r then f + 1
  else if 2 ∣ f then f else f + 1

/-- Insert a thousands separator after every third digit, given the digit
characters in reversed order. -/
def group3 : List Char → List Char
  | a :: b :: c :: d :: rest => a :: b :: c :: ',' :: group3 (d :: rest)
  | l => l

/-- Decimal digits of a natural number with thousands separators. -/
def withCommas (n : ℕ) : String :=
  ⟨(group3 (toString n).data.reverse).reverse⟩

/-- Left-pad a natural number's digits to two places (`05`). -/
def pad2 (n : ℕ) : String :=
  if n < 10 then "0" ++ toString n else toString n

/-- Python `f"{x:,.2f}"`. -/
def fmtComma2 (q : ℚ) : String :=
  let s := rndHalfEven (q * 100)
  (if s < 0 then "-" else "") ++ withCommas (s.natAbs / 100) ++ "." ++ pad2 (s.natAbs % 100)

/-- Python `f"{x:.1f}"`. -/
def fmtFixed1 (q : ℚ) : String :=
  let s := rndHalfEven (q * 10)
  (if s < 0 then "-" else "") ++ toString (s.natAbs / 10) ++ "." ++ toString (s.natAbs % 10)

/-- A string of `n` copies of a character. -/
def repChar (n : ℕ) (c : Char) : String :=
  ⟨List.replicate n c⟩

/-- Python `f"{s:<w}"`: left-justify in a field of `w` characters (never
truncates). -/
def padRight (s : String) (w : ℕ) : String :=
  s ++ repChar (w - s.length) ' '

/-- Python `f"{s:>w}"`: right-justify in a field of `w` characters. -/
def padLeft (s : String) (w : ℕ) : String :=
  repChar (w - s.length) ' ' ++ s

/-- Line format `_format_line(desc, amount, pct)`:
`f"║ {desc:<40} ║ {amount:>15} ║ {pct:>10} ║\n"`. -/
def format_line (desc amount pct : String) : String :=
  "║ " ++ padRight desc 40 ++ " ║ " ++ padLeft amount 15 ++ " ║ " ++
    padLeft pct 10 ++ " ║\n"

/-- The light horizontal divider row emitted for a spacer line. -/
def dividerLine : String :=
  "╠" ++ repChar 42 '─' ++ "╬" ++ repChar 17 '─' ++ "╬" ++ repChar 12 '─' ++ "╣\n"

/-- Numeric view of a row cell (data rows always hold `Val.num` cells; the
`Val.str` case is unreachable for rows the builder sends to the data
branch). -/
def Val.asNum : Val → ℚ
  | .num q => q
  | .str _ => 0

/-- The per-row rendering branch of `_build_report_and_tables`:
`if row[0] and not row[1] and not row[2]` → label-only row,
`elif not row[0]` → divider, else → formatted data line. -/
def renderRow (r : PRow) : String :=
  if r.label ≠ "" ∧ ¬r.amount.truthy ∧ ¬r.frac.truthy then
    format_line r.label "" ""
  else if r.label = "" then dividerLine
  else format_line r.label (fmtComma2 r.amount.asNum)
    (fmtFixed1 (r.frac.asNum * 100) ++ "%")

/-- The full boxed report text built from a `last_pnl_data` row list. -/
def renderReport (rows : List PRow) : String :=
  repChar 20 ' ' ++ "PROFIT & LOSS STATEMENT - All Year\n"
  ++ "╔" ++ repChar 42 '═' ++ "╦" ++ repChar 17 '═' ++ "╦" ++ repChar 12 '═' ++ "╗\n"
  ++ format_line "DESCRIPTION" "AMOUNT ($)" "% OF REV"
  ++ "╠" ++ repChar 42 '═' ++ "╬" ++ repChar 17 '═' ++ "╬" ++ repChar 12 '═' ++ "╣\n"
  ++ String.join (rows.map renderRow)
  ++ "╚" ++ repChar 42 '═' ++ "╩" ++ repChar 17 '═' ++ "╩" ++ repChar 12 '═' ++ "╝\n"

/-! ## Lemmas about the sales-summary parser -/

theorem mem_upsert {m : List (String × ℚ)} {k : String} {v : ℚ} {p : String × ℚ}
    (h : p ∈ upsert m k v) : p = (k, v) ∨ p ∈ m := by
  unfold upsert at h
  split at h
  · rcases List.mem_map.mp h with ⟨q, hq, hfq⟩
    by_cases hk : q.1 = k
    · left; rw [← hfq, if_pos hk]
    · right; rw [← hfq, if_neg hk]; exact hq
  · rcases List.mem_append.mp h with h' | h'
    · right; exact h'
    · left; simpa using h'

theorem lookup_map_upsert {m : List (String × ℚ)} {k : String} {v : ℚ}
    (h : (m.lookup k).isSome) :
    (m.map (fun p => if p.1 = k then (k, v) else p)).lookup k = some v := by
  induction m with
  | nil => simp at h
  | cons p ps ih =>
    obtain ⟨a, b⟩ := p
    by_cases hk : a = k
    · simp [if_pos hk, List.lookup_cons, hk]
    · have hne : (k == a) = false := by
        simp only [beq_eq_false_iff_ne]; exact fun e => hk e.symm
      rw [List.lookup_cons, hne] at h
      simp only [List.map_cons]
      rw [show (if (a, b).1 = k then (k, v) else (a, b)) = (a, b) from if_neg hk,
        List.lookup_cons, hne]
      exact ih h

theorem lookup_append_last {m : List (String × ℚ)} {k : String} {v : ℚ}
    (h : m.lookup k = none) : (m ++ [(k, v)]).lookup k = some v := by
  induction m with
  | nil => simp
  | cons p ps ih =>
    obtain ⟨a, b⟩ := p
    rw [List.lookup_cons] at h
    cases hk : (k == a) with
    | true => rw [hk] at h; exact absurd h (by simp)
    | false =>
      rw [hk] at h
      rw [List.cons_append, List.lookup_cons, hk]
      exact ih h

theorem lookup_upsert (m : List (String × ℚ)) (k : String) (v : ℚ) :
    (upsert m k v).lookup k = some v := by
  unfold upsert
  split
  · exact lookup_map_upsert (by assumption)
  · rename_i h
    exact lookup_append_last (Option.not_isSome_iff_eq_none.mp h)

theorem mem_salesStep {acc : List (String × ℚ)} {row : String × Option ℚ}
    {p : String × ℚ} (h : p ∈ salesStep acc row)
    (hacc : ∀ q ∈ acc, q.1 ≠ "" ∧ q.1 ≠ "nan") : p.1 ≠ "" ∧ p.1 ≠ "nan" := by
  unfold salesStep at h
  rcases row with ⟨s, v?⟩
  cases v? with
  | none => exact hacc p h
  | some v =>
    simp only at h
    split at h
    · rcases mem_upsert h with rfl | hp
      · rename_i hcond; exact hcond
      · exact hacc p hp
    · exact hacc p h

theorem mem_foldl_sales (rows : List (String × Option ℚ)) :
    ∀ acc, (∀ q ∈ acc, q.1 ≠ "" ∧ q.1 ≠ "nan") →
      ∀ p ∈ rows.foldl salesStep acc, p.1 ≠ "" ∧ p.1 ≠ "nan" := by
  induction rows with
  | nil => intro acc hacc p hp; exact hacc p hp
  | cons r rs ih =>
    intro acc hacc p hp
    exact ih (salesStep acc r) (fun q hq => mem_salesStep hq hacc) p hp

/-- Claim C6. `parse_sales_summary` never keeps a key whose trimmed label is
empty or `"nan"`, never keeps a value whose numeric conversion failed (a
kept binding's value comes from a `some` cell by construction of
`salesStep`), and a later occurrence of the same label silently overwrites
the earlier value: after appending a final row for label `s`, looking up the
trimmed label yields exactly that row's value. -/
theorem c6_sales_mapping :
    (∀ (rows : List (String × Option ℚ)) (p : String × ℚ),
      p ∈ parse_sales_summary rows → p.1 ≠ "" ∧ p.1 ≠ "nan") ∧
    (∀ (rows : List (String × Option ℚ)) (s : String) (v : ℚ),
      pyStrip s ≠ "" → pyStrip s ≠ "nan" →
      (parse_sales_summary (rows ++ [(s, some v)])).lookup (pyStrip s) = some v) := by
  constructor
  · intro rows p hp
    exact mem_foldl_sales rows [] (by simp) p hp
  · intro rows s v h1 h2
    unfold parse_sales_summary
    rw [List.foldl_append]
    show (salesStep (parse_sales_summary rows) (s, some v)).lookup (pyStrip s) = some v
    unfold salesStep
    simp only
    rw [if_pos ⟨h1, h2⟩]
    exact lookup_upsert _ _ _

/-- Witness for C6 on concrete data: the second `"Net Sales"` row overwrites
the first, and the kept binding's key is neither empty nor `"nan"`. -/
theorem c6_sales_mapping_witness :
    (parse_sales_summary ([("Net Sales", some 5)] ++ [("Net Sales", some (7 : ℚ))])).lookup
      (pyStrip "Net Sales") = some 7 :=
  c6_sales_mapping.2 [("Net Sales", some 5)] "Net Sales" 7 (by decide) (by decide)

/-! ## Lemmas about the expense parser -/

theorem rowAction_emit_inv {cat : Option String} {r : ERow} {next : Option ERow}
    {er : PRecord} (h : rowAction cat r next = .emit er) :
    cat = some er.category ∧ er.vendor = r.c0 ∧ r.date = some er.date ∧
      parsePyFloat (stripCD r.amt) = some er.amount := by
  unfold rowAction at h
  by_cases h1 : pyStrip r.c0 = "Total" ∨ hasSubstr (pyStrip r.c0) "Total Expenses"
  · rw [if_pos h1] at h; cases h
  · rw [if_neg h1] at h
    by_cases h2 : pyStrip r.c0 ≠ "" ∧ pyStrip r.c0 ≠ "nan" ∧ pyStrip r.c0 ≠ "Vendor" ∧
        ¬hasSubstr (pyStrip r.c0) "Report"
    · rw [if_pos h2] at h
      by_cases h3 : nextVendor next = true
      · rw [if_pos h3] at h; cases h
      · rw [if_neg h3] at h
        cases cat with
        | none => cases h
        | some c =>
          simp only at h
          cases hf : parsePyFloat (stripCD r.amt) with
          | none => rw [hf] at h; cases h
          | some a =>
            rw [hf] at h
            simp only at h
            cases hd : r.date with
            | none => rw [hd] at h; cases h
            | some d =>
              rw [hd] at h
              simp only at h
              cases h
              exact ⟨rfl, rfl, rfl, rfl⟩
    · rw [if_neg h2] at h; cases h

/-- Claim C10 (confirmed). Every record emitted by the expense parser carries a
date obtained from a row whose lenient date parse succeeded (`some`), and a
transaction row whose date fails to parse is dropped even though its amount
parses: the concrete table's `"Joes"` row has amount `"10"` but date `NaT`,
and no record is produced. -/
theorem c10_date_required :
    (∀ (rows : List ERow) (cat : Option String) (er : PRecord),
      er ∈ parseExpensesGo cat rows → ∃ r ∈ rows, r.date = some er.date) ∧
    parse_expenses [⟨"Office", none, "nan"⟩, ⟨"Vendor", none, "nan"⟩,
      ⟨"Joes", none, "10"⟩] = [] := by
  constructor
  · intro rows
    induction rows with
    | nil => intro cat er h; simp [parseExpensesGo] at h
    | cons r rest ih =>
      intro cat er h
      rw [parseExpensesGo] at h
      cases hact : rowAction cat r rest.head? with
      | setCat c =>
        rw [hact] at h
        rcases ih (some c) er h with ⟨r', hr', hd⟩
        exact ⟨r', List.mem_cons_of_mem _ hr', hd⟩
      | emit e =>
        rw [hact] at h
        rcases List.mem_cons.mp h with rfl | h'
        · exact ⟨r, List.mem_cons_self _ _, (rowAction_emit_inv hact).2.2.1⟩
        · rcases ih cat er h' with ⟨r', hr', hd⟩
          exact ⟨r', List.mem_cons_of_mem _ hr', hd⟩
      | skip =>
        rw [hact] at h
        rcases ih cat er h with ⟨r', hr', hd⟩
        exact ⟨r', List.mem_cons_of_mem _ hr', hd⟩
      | dropRow =>
        rw [hact] at h
        rcases ih cat er h with ⟨r', hr', hd⟩
        exact ⟨r', List.mem_cons_of_mem _ hr', hd⟩
  · rfl

/-- Witness for C10: on a table whose `"Ann"` transaction row has a valid
date, the emitted record's date traces back to a row of the table. -/
theorem c10_date_required_witness :
    ∃ r ∈ [(⟨"Office", none, "nan"⟩ : ERow), ⟨"Vendor", none, "nan"⟩,
      ⟨"Ann", some 101, "10"⟩], r.date = some 101 :=
  c10_date_required.1
    [⟨"Office", none, "nan"⟩, ⟨"Vendor", none, "nan"⟩, ⟨"Ann", some 101, "10"⟩]
    none ⟨"Office", "Ann", 101, PyFloat.num ((10 : ℚ) / 10 ^ 0)⟩
    (by
      have e : parseExpensesGo none
          [(⟨"Office", none, "nan"⟩ : ERow), ⟨"Vendor", none, "nan"⟩,
            ⟨"Ann", some 101, "10"⟩] =
          [(⟨"Office", "Ann", 101, PyFloat.num ((10 : ℚ) / 10 ^ 0)⟩ : PRecord)] := rfl
      rw [e]
      exact List.mem_singleton.mpr rfl)

/-- Claim C3 counterexample. A row whose trimmed first cell is `"Total"`
satisfies every condition in the claim's filter (non-empty, not `"nan"`, not
`"Vendor"`, no `"Report"` substring) and is followed by a `"Vendor"` row,
yet the parser skips it instead of making it a category header, and the
subsequent transaction row produces no record. -/
theorem c3_header_iff_counterexample :
    (pyStrip "Total" ≠ "" ∧ pyStrip "Total" ≠ "nan" ∧ pyStrip "Total" ≠ "Vendor" ∧
      ¬hasSubstr (pyStrip "Total") "Report") ∧
    nextVendor (some ⟨"Vendor", none, "nan"⟩) = true ∧
    rowAction none ⟨"Total", none, "nan"⟩ (some ⟨"Vendor", none, "nan"⟩) = .skip ∧
    parse_expenses [⟨"Total", none, "nan"⟩, ⟨"Vendor", none, "nan"⟩,
      ⟨"Joes", some 1, "10"⟩] = [] :=
  ⟨by decide, rfl, rfl, rfl⟩

/-- Claim C3 (amended). For a row whose trimmed first cell is non-empty, not
`"nan"`, not `"Vendor"`, does not contain `"Report"`, *and additionally is
not the skipped summary form* (`"Total"` or containing `"Total Expenses"`):
the row is treated as a category header (action `setCat c0`) iff the next
row exists with first cell literally `"Vendor"`; otherwise, when a current
category is set, the row is processed as a transaction under that category
(emitted with that category and the raw cell as vendor, or dropped). -/
theorem c3_header_iff_amended (cat : Option String) (r : ERow) (next : Option ERow)
    (h1 : pyStrip r.c0 ≠ "") (h2 : pyStrip r.c0 ≠ "nan") (h3 : pyStrip r.c0 ≠ "Vendor")
    (h4 : ¬hasSubstr (pyStrip r.c0) "Report") (h5 : pyStrip r.c0 ≠ "Total")
    (h6 : ¬hasSubstr (pyStrip r.c0) "Total Expenses") :
    (rowAction cat r next = .setCat (pyStrip r.c0) ↔ nextVendor next = true) ∧
    (nextVendor next = false → ∀ c, cat = some c →
      rowAction cat r next = .dropRow ∨
      ∃ er, rowAction cat r next = .emit er ∧ er.category = c ∧ er.vendor = r.c0) := by
  have hskip : ¬(pyStrip r.c0 = "Total" ∨ hasSubstr (pyStrip r.c0) "Total Expenses") := by
    rintro (h | h)
    · exact h5 h
    · exact h6 h
  unfold rowAction
  rw [if_neg hskip, if_pos ⟨h1, h2, h3, h4⟩]
  by_cases h7 : nextVendor next = true
  · rw [if_pos h7]
    constructor
    · simp [h7]
    · intro hfalse
      rw [hfalse] at h7
      cases h7
  · rw [if_neg h7]
    constructor
    · constructor
      · intro he
        cases cat with
        | none => cases he
        | some c =>
          simp only at he
          cases hf : parsePyFloat (stripCD r.amt) with
          | none => rw [hf] at he; cases he
          | some a =>
            rw [hf] at he
            simp only at he
            cases hd : r.date with
            | none => rw [hd] at he; cases he
            | some d => rw [hd] at he; simp only at he; cases he
      · intro hv; exact absurd hv h7
    · intro _ c hc
      subst hc
      simp only
      cases hf : parsePyFloat (stripCD r.amt) with
      | none => exact Or.inl rfl
      | some a =>
        cases hd : r.date with
        | none => exact Or.inl rfl
        | some d => exact Or.inr ⟨⟨c, r.c0, d, a⟩, rfl, rfl, rfl⟩

/-- Witness for amended C3 at a concrete header row and a concrete
transaction row. -/
theorem c3_header_iff_amended_witness :
    (rowAction none ⟨"Supplies", none, "nan"⟩ (some ⟨"Vendor", none, "nan"⟩) =
        .setCat (pyStrip "Supplies") ↔
      nextVendor (some ⟨"Vendor", none, "nan"⟩) = true) ∧
    (nextVendor (some ⟨"Vendor", none, "nan"⟩) = false →
      ∀ c, (none : Option String) = some c →
      rowAction none ⟨"Supplies", none, "nan"⟩ (some ⟨"Vendor", none, "nan"⟩) = .dropRow ∨
      ∃ er, rowAction none ⟨"Supplies", none, "nan"⟩ (some ⟨"Vendor", none, "nan"⟩) =
        .emit er ∧ er.category = c ∧ er.vendor = "Supplies") :=
  c3_header_iff_amended none ⟨"Supplies", none, "nan"⟩ (some ⟨"Vendor", none, "nan"⟩)
    (by decide) (by decide) (by decide) (by decide) (by decide) (by decide)

/-- Claim C5 (code slip). On a table with a category `"Supplies"`, the row
`"Joe"` has a valid date but amount cell `"nan"` (a blank spreadsheet cell
rendered through `str`): Python's `float("nan")` succeeds, so the parser
stores a record whose amount is the NaN float — a null amount — instead of
dropping the row.  Meanwhile `"$1,234.56"` parses to `1234.56` and the
unparsable `"abc"` row is dropped entirely, as claimed. -/
theorem c5_nan_amount_stored :
    parse_expenses [⟨"Supplies", none, "nan"⟩, ⟨"Vendor", none, "nan"⟩,
      ⟨"Joe", some 100, "nan"⟩, ⟨"Ann", some 101, "$1,234.56"⟩,
      ⟨"Bob", some 102, "abc"⟩] =
      [⟨"Supplies", "Joe", 100, PyFloat.nan⟩,
        ⟨"Supplies", "Ann", 101, PyFloat.num ((123456 : ℚ) / 10 ^ 2)⟩] ∧
    ((123456 : ℚ) / 10 ^ 2 = 1234.56) ∧
    parsePyFloat (stripCD "abc") = none := by
  refine ⟨rfl, by norm_num, rfl⟩

/-! ## Builder claims -/

/-- Claim C4 (confirmed). `total_rev` is net sales + tax + prepayments, plus
gratuity exactly when tips are included, with missing keys defaulting to 0;
`net_profit` is gross margin minus total OPEX; and on the spec's example
(net sales 1000, tax 80, gratuity 50, prepayments 0, tips on, empty ledger)
the figures are 1130 / 0 / 1130 / 80 / 1050. -/
theorem c4_revenue_and_profit_formulas :
    (∀ (sales : List (String × ℚ)) (tips : Bool),
      total_rev sales tips =
        getSales sales "Net Sales" + getSales sales "Tax" +
          getSales sales "Prepayments For Future Sales" +
          (if tips then getSales sales "Gratuity" else 0)) ∧
    (∀ (sales : List (String × ℚ)) (ledger : List BRec) (tips : Bool),
      net_profit sales ledger tips =
        gross_margin sales ledger tips - total_opex sales ledger) ∧
    total_rev [("Net Sales", 1000), ("Tax", 80), ("Gratuity", 50),
      ("Prepayments For Future Sales", 0)] true = 1130 ∧
    total_cogs ([] : List BRec) = 0 ∧
    gross_margin [("Net Sales", 1000), ("Tax", 80), ("Gratuity", 50),
      ("Prepayments For Future Sales", 0)] [] true = 1130 ∧
    total_opex [("Net Sales", 1000), ("Tax", 80), ("Gratuity", 50),
      ("Prepayments For Future Sales", 0)] [] = 80 ∧
    net_profit [("Net Sales", 1000), ("Tax", 80), ("Gratuity", 50),
      ("Prepayments For Future Sales", 0)] [] true = 1050 := by
  refine ⟨fun sales tips => rfl, fun sales ledger tips => rfl, ?_, rfl, ?_, ?_, ?_⟩
  · rw [show total_rev [("Net Sales", 1000), ("Tax", 80), ("Gratuity", 50),
      ("Prepayments For Future Sales", 0)] true = 1000 + 80 + 0 + 50 from rfl]
    norm_num
  · rw [show gross_margin [("Net Sales", 1000), ("Tax", 80), ("Gratuity", 50),
      ("Prepayments For Future Sales", 0)] [] true = 1000 + 80 + 0 + 50 - 0 from rfl]
    norm_num
  · rw [show total_opex [("Net Sales", 1000), ("Tax", 80), ("Gratuity", 50),
      ("Prepayments For Future Sales", 0)] [] = 0 + |(0 : ℚ)| + 80 from rfl]
    norm_num
  · rw [show net_profit [("Net Sales", 1000), ("Tax", 80), ("Gratuity", 50),
      ("Prepayments For Future Sales", 0)] [] true =
      1000 + 80 + 0 + 50 - 0 - (0 + |(0 : ℚ)| + 80) from rfl]
    norm_num

/-- Claim C1 counterexample. With an empty sales table and empty ledger the
computed total revenue is 0, yet the `TOTAL REVENUE` statement line carries
the hard-coded fraction `1.0`, not 0 — so "fraction 0 for every line
(including the TOTAL REVENUE line)" fails. -/
theorem c1_zero_revenue_counterexample :
    total_rev [] true = 0 ∧
    (last_pnl_data [] [] true).get? 5 =
      some ⟨"TOTAL REVENUE", Val.num (total_rev [] true), Val.num 1⟩ ∧
    (1 : ℚ) ≠ 0 := by
  refine ⟨?_, rfl, by norm_num⟩
  rw [show total_rev [] true = 0 + 0 + 0 + 0 from rfl]
  norm_num

/-- Claim C1 (amended). When the computed total revenue is exactly 0, every
statement line except the `TOTAL REVENUE` line (whose fraction is always the
hard-coded `1.0`) has fraction 0, and no division is performed (the guard
`if total_rev` substitutes 0). -/
theorem c1_zero_revenue_fractions (sales : List (String × ℚ)) (ledger : List BRec)
    (tips : Bool) (h : total_rev sales tips = 0) :
    ∀ row ∈ last_pnl_data sales ledger tips, row.label ≠ "TOTAL REVENUE" →
      ∀ q, row.frac = Val.num q → q = 0 := by
  intro row hrow hlbl q hq
  have hfrac0 : ∀ x : ℚ, fracOf (total_rev sales tips) x = 0 := by
    intro x; rw [h]; simp [fracOf]
  have hnum : ∀ (lbl : String) (amt : ℚ),
      (dataRow lbl amt (total_rev sales tips)).frac = Val.num q → q = 0 := by
    intro lbl amt hq'
    have h2 : Val.num (fracOf (total_rev sales tips) amt) = Val.num q := hq'
    injection h2 with h3
    rw [← h3]
    exact hfrac0 amt
  simp only [last_pnl_data, List.mem_append, List.mem_cons, List.not_mem_nil,
    or_false, or_assoc] at hrow
  rcases hrow with rfl | rfl | rfl | rfl | hB | rfl | rfl | rfl | hD | rfl | rfl |
      rfl | rfl | rfl | rfl | hF | rfl | rfl
  · simp [hdrRow] at hq
  · exact hnum _ _ hq
  · exact hnum _ _ hq
  · exact hnum _ _ hq
  · by_cases ht : tips = true
    · subst ht
      simp at hB
      subst hB
      exact hnum _ _ hq
    · simp [ht] at hB
  · exact absurd rfl hlbl
  · simp [spacerRow] at hq
  · simp [hdrRow] at hq
  · rcases List.mem_filterMap.mp hD with ⟨c, hc, hsome⟩
    simp only at hsome
    split at hsome
    · injection hsome with h4
      subst h4
      exact hnum _ _ hq
    · cases hsome
  · exact hnum _ _ hq
  · exact hnum _ _ hq
  · simp [spacerRow] at hq
  · simp [hdrRow] at hq
  · exact hnum _ _ hq
  · exact hnum _ _ hq
  · rcases List.mem_map.mp hF with ⟨p, hp, rfl⟩
    exact hnum _ _ hq
  · exact hnum _ _ hq
  · exact hnum _ _ hq

/-- Witness for amended C1: with the empty sales table and empty ledger
(total revenue 0) the `Net Sales` line's fraction is 0. -/
theorem c1_zero_revenue_fractions_witness :
    fracOf (total_rev [] true) (getSales [] "Net Sales") = 0 :=
  c1_zero_revenue_fractions [] [] true
    (by rw [show total_rev [] true = 0 + 0 + 0 + 0 from rfl]; norm_num)
    (dataRow "  Net Sales" (getSales [] "Net Sales") (total_rev [] true))
    (List.mem_cons_of_mem _ (List.mem_cons_self _ _))
    (by decide)
    (fracOf (total_rev [] true) (getSales [] "Net Sales")) rfl

theorem string_append_cancel {pre a b : String} (h : pre ++ a = pre ++ b) : a = b := by
  have hd : pre.data ++ a.data = pre.data ++ b.data := by
    rw [← String.data_append, ← String.data_append, h]
  have hab : a.data = b.data := List.append_cancel_left hd
  cases a; cases b
  exact congrArg String.mk hab

/-- Claim C7 (confirmed). A COGS category line appears in the COGS block iff
the category is on the COGS whitelist and its summed amount is strictly
positive; `total_cogs` is the unfiltered sum over all whitelisted records,
so on `[Inventory −5, Back Bar 3]` the total is −2 while only the
`Back Bar` line is rendered. -/
theorem c7_cogs_line_iff_positive :
    (∀ (ledger : List BRec) (tr : ℚ) (cat : String),
      (∃ row ∈ cogsLines ledger tr, row.label = "  " ++ cat) ↔
        (cat ∈ cogs_cats ∧
          0 < amtSum ((cogs_df ledger).filter (fun r => r.category = cat)))) ∧
    total_cogs [⟨"Inventory", -5⟩, ⟨"Back Bar", 3⟩] = -2 ∧
    (cogsLines [⟨"Inventory", -5⟩, ⟨"Back Bar", 3⟩] 0).map PRow.label = ["  Back Bar"] := by
  refine ⟨?_, ?_, ?_⟩
  · intro ledger tr cat
    constructor
    · rintro ⟨row, hmem, hlbl⟩
      rcases List.mem_filterMap.mp hmem with ⟨c, hc, hsome⟩
      simp only at hsome
      split at hsome
      · rename_i hpos
        injection hsome with h4
        rw [← h4] at hlbl
        have hceq : c = cat := string_append_cancel hlbl
        subst hceq
        exact ⟨hc, hpos⟩
      · cases hsome
    · rintro ⟨hc, hpos⟩
      refine ⟨dataRow ("  " ++ cat)
        (amtSum ((cogs_df ledger).filter (fun r => r.category = cat))) tr, ?_, rfl⟩
      apply List.mem_filterMap.mpr
      exact ⟨cat, hc, by simp only; rw [if_pos hpos]⟩
  · rw [show total_cogs [⟨"Inventory", -5⟩, ⟨"Back Bar", 3⟩] = -5 + (3 + 0) from rfl]
    norm_num
  · have h1 : amtSum ((cogs_df [⟨"Inventory", -5⟩, ⟨"Back Bar", 3⟩]).filter
        (fun r => r.category = "Back Bar")) = 3 + 0 := rfl
    have h2 : amtSum ((cogs_df [⟨"Inventory", -5⟩, ⟨"Back Bar", 3⟩]).filter
        (fun r => r.category = "Inventory")) = -5 + 0 := rfl
    simp only [cogsLines, cogs_cats, List.filterMap, h1, h2]
    norm_num [dataRow]
    decide

/-- Claim C8 (confirmed). The tax estimator computes exactly the five spec
formulas and their sum, with the local services tax equal to 52 precisely
when net profit exceeds 12000; at net profit 1050 (fed rate 12, local rate
1) the LST is 0, and a negative net profit propagates into negative
components rather than an error. -/
theorem c8_hanover_tax_formulas :
    (∀ net fed loc : ℚ,
      (calc_hanover_tax net fed loc).se_tax = (net * 0.9235) * 0.153 ∧
      (calc_hanover_tax net fed loc).fed_inc =
        max 0 (net - (calc_hanover_tax net fed loc).se_tax * 0.5) * (fed / 100) ∧
      (calc_hanover_tax net fed loc).pa_state = net * 0.0307 ∧
      (calc_hanover_tax net fed loc).pa_local = net * (loc / 100) ∧
      (calc_hanover_tax net fed loc).lst = (if net > 12000 then 52.0 else 0) ∧
      (calc_hanover_tax net fed loc).total_tax =
        (calc_hanover_tax net fed loc).se_tax + (calc_hanover_tax net fed loc).fed_inc +
          (calc_hanover_tax net fed loc).pa_state + (calc_hanover_tax net fed loc).pa_local +
          (calc_hanover_tax net fed loc).lst) ∧
    (calc_hanover_tax 1050 12 1).lst = 0 ∧
    (calc_hanover_tax (-1000) 12 1).se_tax < 0 := by
  refine ⟨fun net fed loc => ⟨rfl, rfl, rfl, rfl, rfl, rfl⟩, ?_, ?_⟩
  · show (if (1050 : ℚ) > 12000 then (52.0 : ℚ) else 0) = 0
    norm_num
  · show ((-1000 : ℚ) * 0.9235) * 0.153 < 0
    norm_num

/-- Claim C9 counterexample. A header-only line renders with its label
*left-justified* in the 40-character field, not centered; and a data row
whose amount and fraction are both 0 (Python-falsy) falls into the
header-style branch, rendering blank amount and percent fields instead of
`0.00` / `0.0%`. -/
theorem c9_render_counterexample :
    renderRow (hdrRow "REVENUE") =
      "║ REVENUE                                  ║                 ║            ║\n" ∧
    renderRow (hdrRow "REVENUE") ≠
      "║                 REVENUE                  ║                 ║            ║\n" ∧
    renderRow ⟨"  Prepayments", .num 0, .num 0⟩ =
      "║   Prepayments                            ║                 ║            ║\n" ∧
    renderRow ⟨"  Prepayments", .num 0, .num 0⟩ ≠
      "║   Prepayments                            ║            0.00 ║       0.0% ║\n" := by
  refine ⟨by decide, by decide, by decide, by decide⟩

/-- Claim C9 (amended). The rendering is a pure function of the row: a row
with a non-empty label and a nonzero amount or fraction renders as label
left-justified in 40 characters, the comma-and-two-decimals amount
right-justified in 15, and the one-decimal percentage with trailing `%`
right-justified in 10; a row with non-empty label whose amount and fraction
are both zero or empty — section headers *and* zero data rows alike —
renders as a left-justified label with blank amount and percent fields; a
row with empty label renders as the horizontal divider. -/
theorem c9_render_rows (lbl : String) (amt fr : ℚ)
    (h1 : lbl ≠ "") (h2 : amt ≠ 0 ∨ fr ≠ 0) :
    renderRow ⟨lbl, .num amt, .num fr⟩ =
      format_line lbl (fmtComma2 amt) (fmtFixed1 (fr * 100) ++ "%") ∧
    renderRow ⟨lbl, .num 0, .num 0⟩ = format_line lbl "" "" ∧
    renderRow (hdrRow lbl) = format_line lbl "" "" ∧
    renderRow spacerRow = dividerLine := by
  refine ⟨?_, ?_, ?_, by decide⟩
  · unfold renderRow
    have hcond : ¬((⟨lbl, .num amt, .num fr⟩ : PRow).label ≠ "" ∧
        ¬(Val.num amt).truthy ∧ ¬(Val.num fr).truthy) := by
      rcases h2 with h2 | h2
      · rintro ⟨-, ha, -⟩; exact ha (by simp [Val.truthy, h2])
      · rintro ⟨-, -, hf⟩; exact hf (by simp [Val.truthy, h2])
    rw [if_neg hcond, if_neg h1]
    rfl
  · unfold renderRow
    rw [if_pos ⟨h1, by simp [Val.truthy], by simp [Val.truthy]⟩]
  · unfold renderRow hdrRow
    rw [if_pos ⟨h1, by simp [Val.truthy], by simp [Val.truthy]⟩]

/-- Witness for amended C9 at a concrete data row with nonzero amount. -/
theorem c9_render_rows_witness :
    renderRow ⟨"  Net Sales", .num 1234.56, .num 0.5⟩ =
      format_line "  Net Sales" (fmtComma2 1234.56) (fmtFixed1 ((0.5 : ℚ) * 100) ++ "%") ∧
    renderRow ⟨"  Net Sales", .num 0, .num 0⟩ = format_line "  Net Sales" "" "" ∧
    renderRow (hdrRow "  Net Sales") = format_line "  Net Sales" "" "" ∧
    renderRow spacerRow = dividerLine :=
  c9_render_rows "  Net Sales" 1234.56 0.5 (by decide) (Or.inl (by norm_num))

/-! ## Order lemmas for the operating-expense sort -/

theorem clLe_total : ∀ as bs : List Char, clLe as bs = true ∨ clLe bs as = true
  | [], [] => Or.inl rfl
  | [], _ :: _ => Or.inl rfl
  | _ :: _, [] => Or.inr rfl
  | a :: as, b :: bs => by
    rcases lt_trichotomy a b with h | h | h
    · left; simp [clLe, h]
    · subst h
      have e1 : clLe (a :: as) (a :: bs) = clLe as bs := by simp [clLe, lt_irrefl]
      have e2 : clLe (a :: bs) (a :: as) = clLe bs as := by simp [clLe, lt_irrefl]
      rcases clLe_total as bs with h' | h'
      · left; rw [e1]; exact h'
      · right; rw [e2]; exact h'
    · right; simp [clLe, h]

theorem clLe_trans : ∀ as bs cs : List Char,
    clLe as bs = true → clLe bs cs = true → clLe as cs = true
  | [], _, _, _, _ => rfl
  | _ :: _, [], _, h1, _ => by simp [clLe] at h1
  | _ :: _, _ :: _, [], _, h2 => by simp [clLe] at h2
  | a :: as, b :: bs, c :: cs, h1, h2 => by
    by_cases hab : a < b
    · by_cases hbc : b < c
      · simp [clLe, lt_trans hab hbc]
      · by_cases hcb : c < b
        · rw [show clLe (b :: bs) (c :: cs) = false by simp [clLe, hbc, hcb]] at h2
          cases h2
        · have : b = c := le_antisymm (not_lt.mp hcb) (not_lt.mp hbc)
          subst this
          simp [clLe, hab]
    · by_cases hba : b < a
      · rw [show clLe (a :: as) (b :: bs) = false by simp [clLe, hab, hba]] at h1
        cases h1
      · have : a = b := le_antisymm (not_lt.mp hba) (not_lt.mp hab)
        subst this
        rw [show clLe (a :: as) (a :: bs) = clLe as bs by simp [clLe, lt_irrefl]] at h1
        by_cases hac : a < c
        · simp [clLe, hac]
        · by_cases hca : c < a
          · rw [show clLe (a :: bs) (c :: cs) = false by simp [clLe, hac, hca]] at h2
            cases h2
          · have : a = c := le_antisymm (not_lt.mp hca) (not_lt.mp hac)
            subst this
            rw [show clLe (a :: bs) (a :: cs) = clLe bs cs by simp [clLe, lt_irrefl]] at h2
            rw [show clLe (a :: as) (a :: cs) = clLe as cs by simp [clLe, lt_irrefl]]
            exact clLe_trans as bs cs h1 h2

theorem clLt_trans : ∀ as bs cs : List Char,
    clLt as bs = true → clLt bs cs = true → clLt as cs = true
  | [], [], _, h1, _ => by cases h1
  | [], _ :: _, [], _, h2 => by simp [clLt] at h2
  | [], _ :: _, _ :: _, _, _ => rfl
  | _ :: _, [], _, h1, _ => by simp [clLt] at h1
  | _ :: _, _ :: _, [], _, h2 => by simp [clLt] at h2
  | a :: as, b :: bs, c :: cs, h1, h2 => by
    by_cases hab : a < b
    · by_cases hbc : b < c
      · simp [clLt, lt_trans hab hbc]
      · by_cases hcb : c < b
        · rw [show clLt (b :: bs) (c :: cs) = false by simp [clLt, hbc, hcb]] at h2
          cases h2
        · have : b = c := le_antisymm (not_lt.mp hcb) (not_lt.mp hbc)
          subst this
          simp [clLt, hab]
    · by_cases hba : b < a
      · rw [show clLt (a :: as) (b :: bs) = false by simp [clLt, hab, hba]] at h1
        cases h1
      · have : a = b := le_antisymm (not_lt.mp hba) (not_lt.mp hab)
        subst this
        rw [show clLt (a :: as) (a :: bs) = clLt as bs by simp [clLt, lt_irrefl]] at h1
        by_cases hac : a < c
        · simp [clLt, hac]
        · by_cases hca : c < a
          · rw [show clLt (a :: bs) (c :: cs) = false by simp [clLt, hac, hca]] at h2
            cases h2
          · have : a = c := le_antisymm (not_lt.mp hca) (not_lt.mp hac)
            subst this
            rw [show clLt (a :: bs) (a :: cs) = clLt bs cs by simp [clLt, lt_irrefl]] at h2
            rw [show clLt (a :: as) (a :: cs) = clLt as cs by simp [clLt, lt_irrefl]]
            exact clLt_trans as bs cs h1 h2

theorem clLt_of_clLe_ne : ∀ as bs : List Char,
    clLe as bs = true → as ≠ bs → clLt as bs = true
  | [], [], _, hne => absurd rfl hne
  | [], _ :: _, _, _ => rfl
  | _ :: _, [], h1, _ => by simp [clLe] at h1
  | a :: as, b :: bs, h1, hne => by
    by_cases hab : a < b
    · simp [clLt, hab]
    · by_cases hba : b < a
      · rw [show clLe (a :: as) (b :: bs) = false by simp [clLe, hab, hba]] at h1
        cases h1
      · have : a = b := le_antisymm (not_lt.mp hba) (not_lt.mp hab)
        subst this
        rw [show clLe (a :: as) (a :: bs) = clLe as bs by simp [clLe, lt_irrefl]] at h1
        rw [show clLt (a :: as) (a :: bs) = clLt as bs by simp [clLt, lt_irrefl]]
        exact clLt_of_clLe_ne as bs h1 (fun e => hne (by rw [e]))

theorem strLt_of_strLe_ne (a b : String) (h1 : strLe a b = true) (h2 : a ≠ b) :
    strLt a b = true :=
  clLt_of_clLe_ne a.data b.data h1
    (fun e => h2 (by cases a; cases b; exact congrArg String.mk e))

/-- Inserting `x` into a list already ordered by sum-descending-then-name
keeps that order, provided the names of equal-sum elements already present
all precede `x`'s name. -/
theorem pairwise_orderedInsert_desc (x : String × ℚ) :
    ∀ l : List (String × ℚ), l.Pairwise descThenName →
      (∀ y ∈ l, x.2 = y.2 → strLt x.1 y.1 = true) →
      (List.orderedInsert (fun a b => b.2 ≤ a.2) x l).Pairwise descThenName
  | [], _, _ => List.pairwise_singleton _ _
  | y :: ys, hp, hx => by
    rw [List.orderedInsert]
    rcases List.pairwise_cons.mp hp with ⟨hy, hys⟩
    by_cases hr : y.2 ≤ x.2
    · rw [if_pos hr]
      refine List.pairwise_cons.mpr ⟨?_, hp⟩
      intro z hz
      rcases List.mem_cons.mp hz with rfl | hz'
      · rcases lt_or_eq_of_le hr with h | h
        · exact Or.inl h
        · exact Or.inr ⟨h.symm, hx z (List.mem_cons_self _ _) h.symm⟩
      · rcases hy z hz' with h | ⟨heq, hlt⟩
        · exact Or.inl (lt_of_lt_of_le h hr)
        · rcases lt_or_eq_of_le hr with h2 | h2
          · exact Or.inl (heq ▸ h2)
          · refine Or.inr ⟨by rw [← h2, heq], ?_⟩
            exact clLt_trans _ _ _ (hx y (List.mem_cons_self _ _) h2.symm) hlt
    · rw [if_neg hr]
      push_neg at hr
      refine List.pairwise_cons.mpr ⟨?_, pairwise_orderedInsert_desc x ys hys
        (fun z hz he => hx z (List.mem_cons_of_mem _ hz) he)⟩
      intro z hz
      rcases (List.mem_orderedInsert _).mp hz with rfl | hz'
      · exact Or.inl hr
      · exact hy z hz'

/-- A stable descending insertion sort of a list whose names are strictly
increasing is ordered by sum descending with ties in name order. -/
theorem pairwise_insertionSort_desc :
    ∀ l : List (String × ℚ), l.Pairwise (fun a b => strLt a.1 b.1 = true) →
      (l.insertionSort (fun a b => b.2 ≤ a.2)).Pairwise descThenName
  | [], _ => List.Pairwise.nil
  | x :: xs, hp => by
    rw [List.insertionSort]
    rcases List.pairwise_cons.mp hp with ⟨hx, hxs⟩
    exact pairwise_orderedInsert_desc x _ (pairwise_insertionSort_desc xs hxs)
      (fun y hy _ => hx y ((List.mem_insertionSort _).mp hy))

/-- The grouped category totals come out of the (sorted) groupby with
strictly increasing names. -/
theorem opexCatTotals_names_sorted (ledger : List BRec) :
    (opexCatTotals ledger).Pairwise (fun a b => strLt a.1 b.1 = true) := by
  unfold opexCatTotals
  apply List.pairwise_map.mpr
  haveI hT : IsTotal String (fun a b => strLe a b = true) :=
    ⟨fun a b => clLe_total a.data b.data⟩
  haveI hTr : IsTrans String (fun a b => strLe a b = true) :=
    ⟨fun a b c h1 h2 => clLe_trans a.data b.data c.data h1 h2⟩
  have hs := List.sorted_insertionSort (fun a b => strLe a b = true)
    (((opex_df ledger).map BRec.category).dedup)
  have hnd : (((opex_df ledger).map BRec.category).dedup.insertionSort
      (fun a b => strLe a b = true)).Nodup :=
    ((List.perm_insertionSort _ _).nodup_iff).mpr (List.nodup_dedup _)
  exact (hs.and hnd).imp (fun h => strLt_of_strLe_ne _ _ h.1 h.2)

/-- Claim C2 (amended). The rendered operating-expense category lines are in
descending order of summed amount, and categories with equal sums appear in
ascending (lexicographic) category-name order — the `groupby(sort=True)`
pre-orders the groups alphabetically and the stable value sort preserves
that for ties; first-encountered order plays no role. -/
theorem c2_opex_descending :
    ∀ ledger : List BRec, (opexSorted ledger).Pairwise descThenName :=
  fun ledger =>
    pairwise_insertionSort_desc (opexCatTotals ledger) (opexCatTotals_names_sorted ledger)

/-- Claim C2 counterexample. Ledger `[Zeta 10, Alpha 10]`: both operating
categories sum to 10, first encountered is `Zeta`, yet the built statement
lists `Alpha` first; the first-encountered-tie ordering the claim demands
(`opexSortedByFirstSeen`) gives the opposite list. -/
theorem c2_opex_order_counterexample :
    opexSorted [⟨"Zeta", 10⟩, ⟨"Alpha", 10⟩] = [("Alpha", 10), ("Zeta", 10)] ∧
    opexSortedByFirstSeen [⟨"Zeta", 10⟩, ⟨"Alpha", 10⟩] = [("Zeta", 10), ("Alpha", 10)] ∧
    ([("Alpha", (10 : ℚ)), ("Zeta", 10)] : List (String × ℚ)) ≠
      [("Zeta", 10), ("Alpha", 10)] := by
  refine ⟨?_, ?_, by simp⟩
  · have h : opexCatTotals [⟨"Zeta", 10⟩, ⟨"Alpha", 10⟩] =
        [("Alpha", (10 : ℚ) + 0), ("Zeta", 10 + 0)] := rfl
    unfold opexSorted
    rw [h]
    norm_num [List.insertionSort, List.orderedInsert]
  · have h : opexSortedByFirstSeen [⟨"Zeta", 10⟩, ⟨"Alpha", 10⟩] =
        List.insertionSort (fun a b => b.2 ≤ a.2)
          [("Zeta", (10 : ℚ) + 0), ("Alpha", 10 + 0)] := rfl
    rw [h]
    norm_num [List.insertionSort, List.orderedInsert]
